import Mathlib

/-!
Verification development for the Baileys example client
(src/Example/redis-client.ts and the example socket driver).

Part 1: the serialization codec of RedisClient.set / RedisClient.get
(redis-client.ts lines 154-216).  In the source, `set` stores a string
value unchanged and JSON.stringify of any other value; `get` applies
JSON.parse to the stored text and, when the parse throws, returns the
text unchanged.  We embed the JSON values the client can store as the
inductive `JVal`, a canonical printer `sV` matching JSON.stringify
output, and a parser `parseVal` matching JSON.parse: the full number
grammar with fraction and exponent, insignificant whitespace at the
grammar's ws points, the whole string escape set, and the rejections
(leading zeros, trailing garbage, trailing commas, bare control
characters in strings) all as JSON.parse has them.  Number values are
integers or exact decimals; the IEEE-double rounding JavaScript
applies on top of the literal is outside the model.
-/

/-- A JSON value as stored by the Redis client.  Numbers carry either
an integer or, for a parsed non-integral number literal, its exact
decimal value as a mantissa and a power of ten (jdec neg m e denotes
the number m times 10 to the e, negated when neg; m is kept with its
trailing zeros stripped, so e is negative).  JavaScript converts the
literal to the nearest IEEE double; that rounding, the overflow of
huge literals to Infinity, and UTF-16 surrogate pairing are outside
this model. -/
inductive JVal where
  | jnull : JVal
  | jbool : Bool → JVal
  | jnum : Int → JVal
  | jdec : Bool → Nat → Int → JVal
  | jstr : String → JVal
  | jarr : List JVal → JVal
  | jobj : List (String × JVal) → JVal
deriving Repr

/-- The opening-brace character, written by code point. -/
def lbrace : Char := Char.ofNat 123

/-- The closing-brace character, written by code point. -/
def rbrace : Char := Char.ofNat 125

/-- The backspace character, escaped as a b by JSON. -/
def bsChar : Char := Char.ofNat 8

/-- The form-feed character, escaped as an f by JSON. -/
def ffChar : Char := Char.ofNat 12

/-- JSON insignificant whitespace: space, tab, line feed, carriage
return. -/
def isWs (c : Char) : Bool :=
  c = ' ' || c = '\t' || c = '\n' || c = '\r'

/-- Skip insignificant whitespace, as JSON.parse does around tokens. -/
def skipWs (s : List Char) : List Char :=
  s.dropWhile isWs

/-- Decimal digit to character. -/
def digChar : Nat → Char
  | 0 => '0'
  | 1 => '1'
  | 2 => '2'
  | 3 => '3'
  | 4 => '4'
  | 5 => '5'
  | 6 => '6'
  | 7 => '7'
  | 8 => '8'
  | _ => '9'

/-- Hexadecimal digit to character, lowercase as JSON.stringify
emits it. -/
def hexDigit : Nat → Char
  | 0 => '0'
  | 1 => '1'
  | 2 => '2'
  | 3 => '3'
  | 4 => '4'
  | 5 => '5'
  | 6 => '6'
  | 7 => '7'
  | 8 => '8'
  | 9 => '9'
  | 10 => 'a'
  | 11 => 'b'
  | 12 => 'c'
  | 13 => 'd'
  | 14 => 'e'
  | _ => 'f'

/-- Is the character a hexadecimal digit, in any case. -/
def isHexDigit (c : Char) : Bool :=
  c.isDigit || ('a' ≤ c && c ≤ 'f') || ('A' ≤ c && c ≤ 'F')

/-- Numeric value of a hexadecimal digit character. -/
def hexVal (c : Char) : Nat :=
  if c.isDigit then c.toNat - 48
  else if 'a' ≤ c then c.toNat - 87
  else c.toNat - 55

/-- Decimal print of a natural number, as JSON.stringify emits it. -/
def natChars (n : Nat) : List Char :=
  if n = 0 then ['0'] else ((Nat.digits 10 n).map digChar).reverse

/-- Decimal print of an integer, as JSON.stringify emits it. -/
def intChars : Int → List Char
  | Int.ofNat m => natChars m
  | Int.negSucc m => '-' :: natChars (m + 1)

/-- Decimal print of a non-integral jdec value m times 10 to the e
with e negative: digits of m with the decimal point inserted, zero
padded, as JSON.stringify prints such doubles (its switch to
exponent notation for extreme magnitudes is not modelled). -/
def decChars (neg : Bool) (m : Nat) (e : Int) : List Char :=
  let ds := natChars m
  let k := e.natAbs
  let body :=
    if k < ds.length then ds.take (ds.length - k) ++ '.' :: ds.drop (ds.length - k)
    else '0' :: '.' :: (List.replicate (k - ds.length) '0' ++ ds)
  if neg then '-' :: body else body

/-- JSON string-body escaping as JSON.stringify performs it: quote
and backslash get a backslash, the five short control escapes are
used where they exist, any other control character becomes a
four-digit hexadecimal escape, and everything else passes through. -/
def escChars : List Char → List Char
  | [] => []
  | c :: cs =>
    if c = '"' ∨ c = '\\' then '\\' :: c :: escChars cs
    else if c = bsChar then '\\' :: 'b' :: escChars cs
    else if c = '\t' then '\\' :: 't' :: escChars cs
    else if c = '\n' then '\\' :: 'n' :: escChars cs
    else if c = ffChar then '\\' :: 'f' :: escChars cs
    else if c = '\r' then '\\' :: 'r' :: escChars cs
    else if c.toNat < 32 then
      '\\' :: 'u' :: '0' :: '0' :: hexDigit (c.toNat / 16) :: hexDigit (c.toNat % 16)
        :: escChars cs
    else c :: escChars cs

mutual

/-- Canonical JSON print of a value: the text JSON.stringify produces. -/
def sV : JVal → List Char
  | .jnull => ['n', 'u', 'l', 'l']
  | .jbool true => ['t', 'r', 'u', 'e']
  | .jbool false => ['f', 'a', 'l', 's', 'e']
  | .jnum n => intChars n
  | .jdec neg m e => decChars neg m e
  | .jstr s => '"' :: (escChars s.data ++ ['"'])
  | .jarr xs => '[' :: sItems xs
  | .jobj fs => lbrace :: sFields fs

/-- Array elements, comma separated, with the closing bracket. -/
def sItems : List JVal → List Char
  | [] => [']']
  | [x] => sV x ++ [']']
  | x :: y :: ys => sV x ++ ',' :: sItems (y :: ys)

/-- Object fields, comma separated, with the closing brace. -/
def sFields : List (String × JVal) → List Char
  | [] => [rbrace]
  | [(k, v)] => '"' :: (escChars k.data ++ '"' :: ':' :: (sV v ++ [rbrace]))
  | (k, v) :: f :: fs =>
      '"' :: (escChars k.data ++ '"' :: ':' :: (sV v ++ ',' :: sFields (f :: fs)))

end

mutual

/-- Does the value use only integer numbers?  The stringify side of
the codec is proved only on this fragment; jdec values exist as parse
results, where IEEE semantics start to matter. -/
def intOnly : JVal → Bool
  | .jnull => true
  | .jbool _ => true
  | .jnum _ => true
  | .jdec _ _ _ => false
  | .jstr _ => true
  | .jarr xs => intOnlyL xs
  | .jobj fs => intOnlyF fs

/-- intOnly on array elements. -/
def intOnlyL : List JVal → Bool
  | [] => true
  | x :: xs => intOnly x && intOnlyL xs

/-- intOnly on object fields. -/
def intOnlyF : List (String × JVal) → Bool
  | [] => true
  | (_, v) :: fs => intOnly v && intOnlyF fs

end

/-- Match a literal character sequence at the head of the input. -/
def dropLit : List Char → List Char → Option (List Char)
  | [], s => some s
  | _ :: _, [] => none
  | c :: cs, d :: ds => if d = c then dropLit cs ds else none

/-!
The string-body parser, which reads up to the closing quote: the full
JSON escape set is decoded and an unescaped control character is rejected,
as JSON.parse does.  A \\u escape naming a lone surrogate is accepted
by JSON.parse; here Char.ofNat substitutes its fallback character,
since a Lean Char cannot hold a surrogate.
-/

mutual

/-- String-body characters up to the closing quote. -/
def parseStrBody : List Char → Option (List Char × List Char)
  | [] => none
  | c :: cs =>
    if c = '"' then some ([], cs)
    else if c = '\\' then parseEsc cs
    else if c.toNat < 32 then none
    else (parseStrBody cs).map (fun p => (c :: p.1, p.2))
termination_by structural s => s

/-- The character after a backslash: one of the nine JSON escapes. -/
def parseEsc : List Char → Option (List Char × List Char)
  | [] => none
  | d :: ds =>
    if d = '"' ∨ d = '\\' ∨ d = '/' then
      (parseStrBody ds).map (fun p => (d :: p.1, p.2))
    else if d = 'b' then (parseStrBody ds).map (fun p => (bsChar :: p.1, p.2))
    else if d = 't' then (parseStrBody ds).map (fun p => ('\t' :: p.1, p.2))
    else if d = 'n' then (parseStrBody ds).map (fun p => ('\n' :: p.1, p.2))
    else if d = 'f' then (parseStrBody ds).map (fun p => (ffChar :: p.1, p.2))
    else if d = 'r' then (parseStrBody ds).map (fun p => ('\r' :: p.1, p.2))
    else if d = 'u' then parseU ds
    else none
termination_by structural s => s

/-- Four hexadecimal digits after a u escape. -/
def parseU : List Char → Option (List Char × List Char)
  | h1 :: h2 :: h3 :: h4 :: ds2 =>
    if isHexDigit h1 ∧ isHexDigit h2 ∧ isHexDigit h3 ∧ isHexDigit h4 then
      (parseStrBody ds2).map (fun p =>
        (Char.ofNat (hexVal h1 * 4096 + hexVal h2 * 256 + hexVal h3 * 16 + hexVal h4)
          :: p.1, p.2))
    else none
  | _ => none
termination_by structural s => s

end

/-- Numeric value of a digit character. -/
def digVal (c : Char) : Nat := c.toNat - 48

/-- Value of a big-endian decimal digit run. -/
def digitsVal (ds : List Char) : Nat :=
  ds.foldl (fun a c => a * 10 + digVal c) 0

/-- Parse the integer part of a JSON number: a maximal nonempty digit
run without a leading zero (a single 0 allowed), as JSON.parse
requires. -/
def parseIntPart (s : List Char) : Option (List Char × List Char) :=
  let ds := s.takeWhile Char.isDigit
  if ds.isEmpty then none
  else if 2 ≤ ds.length ∧ ds.headD 'x' = '0' then none
  else some (ds, s.dropWhile Char.isDigit)

/-- Parse the optional fraction part: a point followed by at least
one digit, else nothing consumed. -/
def parseFracPart (s : List Char) : Option (List Char × List Char) :=
  match s with
  | [] => some ([], [])
  | c :: r =>
    if c = '.' then
      let ds := r.takeWhile Char.isDigit
      if ds.isEmpty then none else some (ds, r.dropWhile Char.isDigit)
    else some ([], c :: r)

/-- Parse the optional exponent part: e or E, an optional sign, then
at least one digit, else nothing consumed. -/
def parseExpPart (s : List Char) : Option (Int × List Char) :=
  match s with
  | [] => some (0, [])
  | c :: r =>
    if c = 'e' ∨ c = 'E' then
      match r with
      | [] => none
      | d :: r2 =>
        if d = '+' then
          let ds := r2.takeWhile Char.isDigit
          if ds.isEmpty then none
          else some ((digitsVal ds : Int), r2.dropWhile Char.isDigit)
        else if d = '-' then
          let ds := r2.takeWhile Char.isDigit
          if ds.isEmpty then none
          else some (-(digitsVal ds : Int), r2.dropWhile Char.isDigit)
        else
          let ds := (d :: r2).takeWhile Char.isDigit
          if ds.isEmpty then none
          else some ((digitsVal ds : Int), (d :: r2).dropWhile Char.isDigit)
    else some (0, c :: r)

/-- Strip factors of ten from the mantissa into the exponent. -/
def strip10 (m : Nat) (e : Int) : Nat × Int :=
  if h : m ≠ 0 ∧ m % 10 = 0 then strip10 (m / 10) (e + 1) else (m, e)
termination_by m
decreasing_by
  exact Nat.div_lt_self (by omega) (by omega)

/-- Assemble the number value from the parsed literal parts: sign,
integer-part value, fraction digits, exponent.  An integral value
becomes jnum (the JavaScript number is that integer); a non-integral
one keeps its exact decimal as jdec. -/
def mkNum (neg : Bool) (ip : Nat) (fds : List Char) (ex : Int) : JVal :=
  let M : Nat := ip * 10 ^ fds.length + digitsVal fds
  let e : Int := ex - fds.length
  if M = 0 then JVal.jnum 0
  else if 0 ≤ e then
    let v : Int := (M : Int) * 10 ^ e.toNat
    JVal.jnum (if neg then -v else v)
  else
    let p := strip10 M e
    if 0 ≤ p.2 then
      let v : Int := (p.1 : Int) * 10 ^ p.2.toNat
      JVal.jnum (if neg then -v else v)
    else JVal.jdec neg p.1 p.2

/-- Parse a JSON number after the optional minus sign has been
consumed: integer part, optional fraction, optional exponent, the
full grammar of JSON.parse. -/
def parseNumber (neg : Bool) (s : List Char) : Option (JVal × List Char) :=
  match parseIntPart s with
  | none => none
  | some (ids, s1) =>
    match parseFracPart s1 with
    | none => none
    | some (fds, s2) =>
      match parseExpPart s2 with
      | none => none
      | some (ex, s3) => some (mkNum neg (digitsVal ids) fds ex, s3)

mutual

/-- Fuel-indexed JSON parser for one value, mirroring JSON.parse.
The input is expected with leading whitespace already skipped; the
callers skip whitespace at exactly the ws points of the JSON grammar.
Returns the value and the unconsumed rest. -/
def parseVal : Nat → List Char → Option (JVal × List Char)
  | 0, _ => none
  | _ + 1, [] => none
  | f + 1, c :: s =>
    if c = 'n' then (dropLit ['u', 'l', 'l'] s).map (fun r => (.jnull, r))
    else if c = 't' then (dropLit ['r', 'u', 'e'] s).map (fun r => (.jbool true, r))
    else if c = 'f' then
      (dropLit ['a', 'l', 's', 'e'] s).map (fun r => (.jbool false, r))
    else if c = '"' then
      match parseStrBody s with
      | some (body, r) => some (.jstr (String.mk body), r)
      | none => none
    else if c = '[' then
      match skipWs s with
      | [] => none
      | d :: r => if d = ']' then some (.jarr [], r)
                  else match parseItems1 f (d :: r) with
                       | some (vs, r2) => some (.jarr vs, r2)
                       | none => none
    else if c = lbrace then
      match skipWs s with
      | [] => none
      | d :: r => if d = rbrace then some (.jobj [], r)
                  else match parseFields1 f (d :: r) with
                       | some (fs, r2) => some (.jobj fs, r2)
                       | none => none
    else if c = '-' then parseNumber true s
    else if c.isDigit then parseNumber false (c :: s)
    else none
termination_by structural f _ => f

/-- One or more comma-separated array elements then the closing
bracket, whitespace skipped around each element, a trailing comma
rejected, as JSON.parse does. -/
def parseItems1 : Nat → List Char → Option (List JVal × List Char)
  | 0, _ => none
  | f + 1, s =>
    match parseVal f s with
    | none => none
    | some (v, s1) =>
      match skipWs s1 with
      | [] => none
      | c :: s2 =>
        if c = ']' then some ([v], s2)
        else if c = ',' then
          match parseItems1 f (skipWs s2) with
          | some (vs, r) => some (v :: vs, r)
          | none => none
        else none
termination_by structural f _ => f

/-- One or more comma-separated object fields then the closing brace,
whitespace skipped at the grammar points. -/
def parseFields1 : Nat → List Char → Option (List (String × JVal) × List Char)
  | 0, _ => none
  | f + 1, s =>
    match s with
    | [] => none
    | c :: s1 =>
      if c = '"' then
        match parseStrBody s1 with
        | none => none
        | some (kcs, s2) =>
          match skipWs s2 with
          | [] => none
          | d :: s3 =>
            if d = ':' then
              match parseVal f (skipWs s3) with
              | none => none
              | some (v, s4) =>
                match skipWs s4 with
                | [] => none
                | e :: s5 =>
                  if e = rbrace then some ([(String.mk kcs, v)], s5)
                  else if e = ',' then
                    match parseFields1 f (skipWs s5) with
                    | some (fs, r) => some ((String.mk kcs, v) :: fs, r)
                    | none => none
                  else none
            else none
      else none
termination_by structural f _ => f

end

/-- Whole-text JSON parse: whitespace allowed around the single
value, which must span the whole input, as JSON.parse requires. -/
def jsonParse (t : String) : Option JVal :=
  match parseVal (t.data.length + 1) (skipWs t.data) with
  | some (v, r) => if skipWs r = [] then some v else none
  | _ => none

/-- The encoding step of RedisClient.set (redis-client.ts line 160):
a string value passes through unchanged, any other value is printed
with JSON.stringify. -/
def encode : JVal → String
  | .jstr s => s
  | v => String.mk (sV v)

/-- The decoding step of RedisClient.get (redis-client.ts lines
199-208): try JSON.parse, and on failure return the text unchanged
as a string. -/
def decode (t : String) : JVal :=
  match jsonParse t with
  | some v => v
  | none => .jstr t

/-- True when the input cannot extend a number token: it is empty or
begins with none of a digit, a point, or an exponent letter.  The
boundary under which a printed number is read back whole. -/
def numBoundary : List Char → Bool
  | [] => true
  | c :: _ => !(c.isDigit || c = '.' || c = 'e' || c = 'E')

/-!
Part 2: the RedisClient wrapper (src/Example/redis-client.ts).
The remote keyspace is a function from keys to stored text plus an
optional TTL in seconds.  Client operations are guarded by isReady()
exactly as in the source; a possible failure of the underlying
transport call is modelled by the Boolean parameter transportFails,
since those calls are re-thrown by the source after logging.
-/

/-- The remote keyspace: stored text and optional TTL seconds. -/
def Store := String → Option (String × Option Nat)

/-- The empty keyspace. -/
def emptyStore : Store := fun _ => none

/-- Write one key (redis SET / SETEX). -/
def storeSet (st : Store) (k text : String) (ttl : Option Nat) : Store :=
  fun q => if q = k then some (text, ttl) else st q

/-- Remove one key. -/
def storeRemove (st : Store) (k : String) : Store :=
  fun q => if q = k then none else st q

/-- redis DEL over a key list: keys are removed left to right and only
keys that exist at their turn are counted. -/
def storeDel (st : Store) (ks : List String) : Nat × Store :=
  ks.foldl
    (fun acc k => if (acc.2 k).isSome then (acc.1 + 1, storeRemove acc.2 k) else acc)
    (0, st)

/-- The mutable fields of RedisClient that the claims touch
(redis-client.ts lines 22-46): isConnected, whether this.client has
been assigned, the retry cap, and the keyspace it talks to. -/
structure RedisClientSt where
  isConnected : Bool
  hasClient : Bool
  maxRetries : Nat
  store : Store

/-- The constructor default (line 38): this.maxRetries is
config.maxRetries || 3, so any falsy configured value (absent or 0)
becomes 3. -/
def constructorMaxRetries : Option Nat → Nat
  | none => 3
  | some m => if m = 0 then 3 else m

/-- A freshly constructed client (lines 30-46): not connected, no
underlying client object yet. -/
def mkRedisClient (cfgMaxRetries : Option Nat) : RedisClientSt :=
  { isConnected := false
    hasClient := false
    maxRetries := constructorMaxRetries cfgMaxRetries
    store := emptyStore }

/-- isReady (lines 144-146): connected and the client object exists. -/
def RedisClientSt.isReady (c : RedisClientSt) : Bool :=
  c.isConnected && c.hasClient

/-- The error outcomes a store operation can produce: the guard error
thrown when isReady() is false, or a re-thrown transport error. -/
inductive RErr where
  | notConnected : RErr
  | transport : RErr
deriving Repr, DecidableEq

/-- setEx is only used when expiresIn is truthy (line 162), so a TTL
of 0 stores without expiry, like an absent TTL. -/
def effectiveTtl : Option Nat → Option Nat
  | none => none
  | some t => if t = 0 then none else some t

/-- RedisClient.set (lines 154-179): guard on isReady, encode the
value, store with or without expiry. -/
def rcSet (c : RedisClientSt) (transportFails : Bool) (k : String) (v : JVal)
    (ttl : Option Nat) : Except RErr RedisClientSt :=
  if c.isReady = false then .error .notConnected
  else if transportFails then .error .transport
  else .ok { c with store := storeSet c.store k (encode v) (effectiveTtl ttl) }

/-- RedisClient.get (lines 186-216): guard on isReady; an absent key
returns null; otherwise parse the text as JSON and fall back to the
raw string. -/
def rcGet (c : RedisClientSt) (transportFails : Bool) (k : String) : Except RErr JVal :=
  if c.isReady = false then .error .notConnected
  else if transportFails then .error .transport
  else match c.store k with
    | none => .ok .jnull
    | some (t, _) => .ok (decode t)

/-- The argument normalization of RedisClient.delete (line 229): a
single key becomes a one-element array. -/
def normalizeKeys : String ⊕ List String → List String
  | .inl k => [k]
  | .inr ks => ks

/-- RedisClient.delete (lines 223-248): guard on isReady, return 0
without touching the store for an empty key array, else DEL. -/
def rcDelete (c : RedisClientSt) (transportFails : Bool) (keys : String ⊕ List String) :
    Except RErr (Nat × RedisClientSt) :=
  if c.isReady = false then .error .notConnected
  else
    let keyArray := normalizeKeys keys
    if keyArray.isEmpty then .ok (0, c)
    else if transportFails then .error .transport
    else
      let r := storeDel c.store keyArray
      .ok (r.1, { c with store := r.2 })

/-- RedisClient.exists (lines 255-271): guard on isReady, then the
EXISTS count compared with 1. -/
def rcExists (c : RedisClientSt) (transportFails : Bool) (k : String) : Except RErr Bool :=
  if c.isReady = false then .error .notConnected
  else if transportFails then .error .transport
  else .ok (c.store k).isSome

/-- The reconnectStrategy closure (lines 69-84): past the cap it
returns an Error, otherwise the capped linear backoff delay in ms. -/
def reconnectStrategy (maxRetries retries : Nat) : Except Unit Nat :=
  if retries > maxRetries then .error ()
  else .ok (min (retries * 50) 500)

/-- The error-event listener (lines 90-93) clears isConnected. -/
def onErrorEvent (c : RedisClientSt) : RedisClientSt :=
  { c with isConnected := false }

/-- A successful connect() (lines 63-110) assigns this.client and
sets isConnected. -/
def onConnectSuccess (c : RedisClientSt) : RedisClientSt :=
  { c with hasClient := true, isConnected := true }

/-!
Part 3: the session lifecycle controller (src/unnamed/part_000).
Session-handle calls are modelled as effects appended to a trace;
the environment says which calls reject.  An effect run by a plain
await propagates its rejection (Except.error), which is exactly what
the source dispatch callback does: none of those awaits sit in a
try/catch.  The one call with a .catch handler, profilePictureUrl
(line 262), is contained and never faults the dispatcher.
-/

/-- The observable operations the controller performs. -/
inductive Effect where
  | readMessages (keyId : String)
  | presenceSubscribe (jid : String)
  | delayMs (ms : Nat)
  | sendPresenceUpdate (status jid : String)
  | sendMessage (jid text : String)
  | requestPlaceholderResend (keyId : String)
  | fetchMessageHistory (count : Nat) (keyId : String) (timestamp : Nat)
  | profilePictureUrl (contactId : String)
  | saveCreds
deriving Repr, DecidableEq

/-- The fields of an incoming message the upsert handler inspects. -/
structure WAMsg where
  fromMe : Bool
  remoteJid : String
  keyId : String
  conversation : Option String
  extendedText : Option String
  messageTimestamp : Nat

/-- JavaScript truthiness of an optional string: the empty string is
falsy, so it does not count as text. -/
def truthy : Option String → Option String
  | none => none
  | some s => if s = "" then none else some s

/-- msg.message?.conversation || msg.message?.extendedTextMessage?.text
(lines 195-196). -/
def msgText (m : WAMsg) : Option String :=
  match truthy m.conversation with
  | some t => some t
  | none => truthy m.extendedText

/-- The dispatch environment: the doReplies feature flag, the
newsletter test, and which session-handle calls reject. -/
structure DispatchEnv where
  doReplies : Bool
  isNewsletter : String → Bool
  fails : Effect → Bool

/-- Run one awaited session-handle call: append it to the trace, or
propagate its rejection uncaught. -/
def runOp (env : DispatchEnv) (tr : List Effect) (e : Effect) : Except Unit (List Effect) :=
  if env.fails e then .error () else .ok (tr ++ [e])

/-- Run a call guarded by .catch(() => null): the attempt is made and
the dispatcher proceeds whether or not it rejected. -/
def runOpCaught (tr : List Effect) (e : Effect) : List Effect :=
  tr ++ [e]

/-- sendMessageWTyping (lines 100-110): subscribe, wait 500ms,
composing, wait 2000ms, paused, send — each awaited in order. -/
def sendMessageWTyping (env : DispatchEnv) (tr : List Effect) (text jid : String) :
    Except Unit (List Effect) := do
  let tr ← runOp env tr (.presenceSubscribe jid)
  let tr := tr ++ [.delayMs 500]
  let tr ← runOp env tr (.sendPresenceUpdate "composing" jid)
  let tr := tr ++ [.delayMs 2000]
  let tr ← runOp env tr (.sendPresenceUpdate "paused" jid)
  runOp env tr (.sendMessage jid text)

/-- The per-message body of the messages.upsert handler
(lines 194-214). -/
def processMsg (env : DispatchEnv) (requestId : Option String) (tr : List Effect)
    (m : WAMsg) : Except Unit (List Effect) :=
  match msgText m with
  | none => .ok tr
  | some text => do
    let tr ← if text = "requestPlaceholder" ∧ requestId = none then
               runOp env tr (.requestPlaceholderResend m.keyId)
             else .ok tr
    let tr ← if text = "onDemandHistSync" then
               runOp env tr (.fetchMessageHistory 50 m.keyId m.messageTimestamp)
             else .ok tr
    if !m.fromMe && env.doReplies && !(env.isNewsletter m.remoteJid) then do
      let tr ← runOp env tr (.readMessages m.keyId)
      sendMessageWTyping env tr "Hello there!" m.remoteJid
    else .ok tr

/-- The messages.upsert event payload. -/
structure UpsertEvent where
  upsertType : String
  requestId : Option String
  messages : List WAMsg

/-- The messages.upsert handler (lines 183-217): only a notify batch
is acted on, message by message in order. -/
def processUpsert (env : DispatchEnv) (tr : List Effect) (u : UpsertEvent) :
    Except Unit (List Effect) :=
  if u.upsertType = "notify" then u.messages.foldlM (processMsg env u.requestId) tr
  else .ok tr

/-- One contacts.update entry: imgUrl is absent (outer none), null
(some none), or a URL. -/
structure ContactUpdate where
  contactId : String
  imgUrl : Option (Option String)

/-- The contacts.update handler body (lines 257-268): fetch the
profile picture only when imgUrl changed to a non-null value, with the
rejection contained by .catch(() => null). -/
def processContact (tr : List Effect) (c : ContactUpdate) :
    List Effect :=
  match c.imgUrl with
  | none => tr
  | some none => tr
  | some (some _) => runOpCaught tr (.profilePictureUrl c.contactId)

/-- The contacts.update loop. -/
def processContacts (tr : List Effect) (cs : List ContactUpdate) :
    List Effect :=
  cs.foldl processContact tr

/-- One batch of events as delivered to sock.ev.process; only the
event kinds with session-handle or store side effects are carried,
in the source handler order (creds.update at line 156, messages.upsert
at line 183, contacts.update at line 257). -/
structure EventBatch where
  credsUpdate : Bool
  upsert : Option UpsertEvent
  contactsUpdate : List ContactUpdate

/-- The dispatch callback of sock.ev.process (lines 114-274) on the
effectful event kinds: one async function handling the kinds of the
batch in source order, with no try/catch around the awaits. -/
def processBatch (env : DispatchEnv) (b : EventBatch) : Except Unit (List Effect) := do
  let tr ← if b.credsUpdate then runOp env [] .saveCreds else .ok []
  let tr ← match b.upsert with
           | some u => processUpsert env tr u
           | none => .ok tr
  .ok (processContacts tr b.contactsUpdate)

/-- DisconnectReason.loggedOut of the external protocol library
(value 401 there; only its distinguishedness matters here). -/
def disconnectLoggedOut : Nat := 401

/-- The controller state the lifecycle claims talk about: how many
session handles have been created, whether the controller stopped
after a logout, and the persisted credentials. -/
structure CtrlState where
  handles : Nat
  terminated : Bool
  creds : String

/-- The connection close branch (lines 122-129): any status code
other than loggedOut — including an absent cause — calls startSock()
again, creating a fresh handle; loggedOut only logs and stops. -/
def onCloseUpdate (s : CtrlState) (statusCode : Option Nat) : CtrlState :=
  if statusCode ≠ some disconnectLoggedOut then
    { s with handles := s.handles + 1 }
  else
    { s with terminated := true }

/-- A run of close events: once the controller has terminated no
handler is attached any more, so nothing further happens. -/
def runCloses : CtrlState → List (Option Nat) → CtrlState
  | s, [] => s
  | s, c :: cs => if s.terminated then s else runCloses (onCloseUpdate s c) cs

/-- The guard of the pairing branch (line 133): connection is
undefined and the client is not yet registered, plus the pairing-code
feature flag (line 136). -/
def pairingGuard (connection : Option String) (registered usePairingCode : Bool) : Bool :=
  connection.isNone && !registered && usePairingCode

/-- The cache key for a pairing code (line 140). -/
def pairingKey (phone : String) : String :=
  "pairing_code:" ++ phone

/-- The pairing branch body (lines 138-141): the code returned by the
session handle is stored under the phone-derived key with a TTL of
60 * 5 seconds. -/
def handlePairing (c : RedisClientSt) (transportFails : Bool) (phone code : String) :
    Except RErr RedisClientSt :=
  rcSet c transportFails (pairingKey phone) (.jstr code) (some (60 * 5))


/-!
Round-trip lemmas: the parser reads back exactly what the printer
wrote.  These drive the codec claims.
-/

theorem dropLit_append (lit s : List Char) : dropLit lit (lit ++ s) = some s := by
  induction lit with
  | nil => rfl
  | cons c cs ih => simp [dropLit, ih]

theorem skipWs_nil : skipWs [] = [] := rfl

theorem skipWs_cons_of {c : Char} (h : isWs c = false) (s : List Char) :
    skipWs (c :: s) = c :: s := by
  simp [skipWs, List.dropWhile_cons, h]

theorem digChar_isDigit (d : Nat) (h : d < 10) : (digChar d).isDigit = true := by
  interval_cases d <;> decide

theorem digVal_digChar (d : Nat) (h : d < 10) : digVal (digChar d) = d := by
  interval_cases d <;> decide

theorem digChar_ne_zeroChar (d : Nat) (h : d < 10) (h0 : d ≠ 0) : digChar d ≠ '0' := by
  interval_cases d <;> simp_all <;> decide

theorem hexVal_hexDigit (d : Nat) (h : d < 16) : hexVal (hexDigit d) = d := by
  interval_cases d <;> decide

theorem isHexDigit_hexDigit (d : Nat) (h : d < 16) : isHexDigit (hexDigit d) = true := by
  interval_cases d <;> decide

theorem natChars_ne_nil (m : Nat) : natChars m ≠ [] := by
  unfold natChars
  by_cases h : m = 0
  · simp [h]
  · simp only [if_neg h]
    simp [Nat.digits_ne_nil_iff_ne_zero, h]

theorem natChars_all_digits (m : Nat) : ∀ c ∈ natChars m, c.isDigit = true := by
  intro c hc
  unfold natChars at hc
  by_cases h : m = 0
  · simp [h] at hc
    simp [hc]
  · simp only [if_neg h, List.mem_reverse, List.mem_map] at hc
    obtain ⟨d, hd, rfl⟩ := hc
    exact digChar_isDigit d (Nat.digits_lt_base (by norm_num) hd)

theorem foldr_digits_ofDigits (D : List Nat) (hD : ∀ d ∈ D, d < 10) :
    (D.map digChar).foldr (fun c a => a * 10 + digVal c) 0 = Nat.ofDigits 10 D := by
  induction D with
  | nil => simp [Nat.ofDigits]
  | cons d D ih =>
    have hd : d < 10 := hD d (by simp)
    have hD2 : ∀ x ∈ D, x < 10 := fun x hx => hD x (by simp [hx])
    simp only [List.map_cons, List.foldr_cons, ih hD2, Nat.ofDigits_cons,
      digVal_digChar d hd]
    ring

theorem natChars_digitsVal (m : Nat) : digitsVal (natChars m) = m := by
  unfold digitsVal natChars
  by_cases h : m = 0
  · simp [h, digVal]
  · simp only [if_neg h, List.foldl_reverse]
    have := foldr_digits_ofDigits (Nat.digits 10 m)
      (fun d hd => Nat.digits_lt_base (by norm_num) hd)
    simpa [this] using (Nat.ofDigits_digits 10 m)

theorem takeWhile_all {p : Char → Bool} {xs : List Char} (h : ∀ x ∈ xs, p x = true)
    (ys : List Char) : (xs ++ ys).takeWhile p = xs ++ ys.takeWhile p := by
  induction xs with
  | nil => rfl
  | cons x xs ih =>
    rw [List.cons_append, List.takeWhile_cons, if_pos (h x (by simp)),
      ih (fun a ha => h a (by simp [ha])), List.cons_append]

theorem dropWhile_all {p : Char → Bool} {xs : List Char} (h : ∀ x ∈ xs, p x = true)
    (ys : List Char) : (xs ++ ys).dropWhile p = ys.dropWhile p := by
  induction xs with
  | nil => rfl
  | cons x xs ih =>
    rw [List.cons_append, List.dropWhile_cons, if_pos (h x (by simp))]
    exact ih (fun a ha => h a (by simp [ha]))

theorem numBoundary_facts {c : Char} {s : List Char} (h : numBoundary (c :: s) = true) :
    c.isDigit = false ∧ c ≠ '.' ∧ c ≠ 'e' ∧ c ≠ 'E' := by
  simp only [numBoundary, Bool.not_eq_true', Bool.or_eq_false_iff,
    decide_eq_false_iff_not] at h
  exact ⟨h.1.1.1, h.1.1.2, h.1.2, h.2⟩

theorem numBoundary_takeWhile {s : List Char} (h : numBoundary s = true) :
    s.takeWhile Char.isDigit = [] := by
  cases s with
  | nil => rfl
  | cons c cs =>
    obtain ⟨hd, -, -, -⟩ := numBoundary_facts h
    simp [List.takeWhile_cons, hd]

theorem numBoundary_dropWhile {s : List Char} (h : numBoundary s = true) :
    s.dropWhile Char.isDigit = s := by
  cases s with
  | nil => rfl
  | cons c cs =>
    obtain ⟨hd, -, -, -⟩ := numBoundary_facts h
    simp [List.dropWhile_cons, hd]

theorem natChars_len_one {m : Nat} (hm : m < 10) : (natChars m).length = 1 := by
  by_cases h0 : m = 0
  · simp [natChars, h0]
  · have hdig : Nat.digits 10 m = [m] := by
      rw [Nat.digits_def' (by norm_num : 1 < 10) (by omega : 0 < m)]
      rw [Nat.mod_eq_of_lt (by omega), Nat.div_eq_of_lt (by omega), Nat.digits_zero]
    simp [natChars, h0, hdig]

theorem natChars_headD_ne_zeroChar {m : Nat} (hm : 10 ≤ m) :
    (natChars m).headD 'x' ≠ '0' := by
  have h0 : m ≠ 0 := by omega
  have hnil : Nat.digits 10 m ≠ [] := Nat.digits_ne_nil_iff_ne_zero.mpr h0
  have hhead : (natChars m).head? = some (digChar ((Nat.digits 10 m).getLast hnil)) := by
    unfold natChars
    rw [if_neg h0, List.head?_reverse,
      List.getLast?_eq_getLast _ (by simpa using hnil), List.getLast_map]
  have hlast : (Nat.digits 10 m).getLast hnil ≠ 0 :=
    Nat.getLast_digit_ne_zero 10 h0
  have hlt : (Nat.digits 10 m).getLast hnil < 10 :=
    Nat.digits_lt_base (by norm_num) (List.getLast_mem hnil)
  have hne : digChar ((Nat.digits 10 m).getLast hnil) ≠ '0' :=
    digChar_ne_zeroChar _ hlt hlast
  intro hcon
  apply hne
  rcases hL : natChars m with _ | ⟨a, t⟩
  · rw [hL] at hhead
    cases hhead
  · rw [hL] at hhead hcon
    simp only [List.head?_cons, Option.some.injEq] at hhead
    simpa [List.headD, hhead] using hcon

theorem parseIntPart_natChars (m : Nat) {rest : List Char}
    (h : numBoundary rest = true) :
    parseIntPart (natChars m ++ rest) = some (natChars m, rest) := by
  have hall : ∀ c ∈ natChars m, c.isDigit = true := natChars_all_digits m
  have htake : (natChars m ++ rest).takeWhile Char.isDigit = natChars m := by
    rw [takeWhile_all hall, numBoundary_takeWhile h, List.append_nil]
  have hdrop : (natChars m ++ rest).dropWhile Char.isDigit = rest := by
    rw [dropWhile_all hall, numBoundary_dropWhile h]
  unfold parseIntPart
  simp only [htake, hdrop]
  rw [if_neg (by simp [List.isEmpty_iff, natChars_ne_nil m])]
  rw [if_neg ?hlz]
  case hlz =>
    rintro ⟨hlen, hhead⟩
    by_cases hm : 10 ≤ m
    · exact natChars_headD_ne_zeroChar hm hhead
    · have : (natChars m).length = 1 := natChars_len_one (by omega)
      omega

theorem parseFracPart_boundary {rest : List Char} (h : numBoundary rest = true) :
    parseFracPart rest = some ([], rest) := by
  cases rest with
  | nil => rfl
  | cons c cs =>
    obtain ⟨-, hdot, -, -⟩ := numBoundary_facts h
    simp [parseFracPart, hdot]

theorem parseExpPart_boundary {rest : List Char} (h : numBoundary rest = true) :
    parseExpPart rest = some (0, rest) := by
  cases rest with
  | nil => rfl
  | cons c cs =>
    obtain ⟨-, -, he, hE⟩ := numBoundary_facts h
    simp [parseExpPart, he, hE]

theorem mkNum_int (neg : Bool) (m : Nat) :
    mkNum neg m [] 0 = JVal.jnum (if neg then -(m : Int) else (m : Int)) := by
  unfold mkNum
  simp only [List.length_nil, pow_zero, Nat.mul_one, digitsVal, List.foldl_nil,
    Nat.add_zero, Nat.cast_ofNat, Int.toNat_zero]
  by_cases h0 : m = 0
  · subst h0
    cases neg <;> simp
  · rw [if_neg h0, if_pos (by simp)]
    simp

theorem parseNumber_natChars (neg : Bool) (m : Nat) {rest : List Char}
    (h : numBoundary rest = true) :
    parseNumber neg (natChars m ++ rest) =
      some (JVal.jnum (if neg then -(m : Int) else (m : Int)), rest) := by
  unfold parseNumber
  rw [parseIntPart_natChars m h]
  simp only []
  rw [parseFracPart_boundary h]
  simp only []
  rw [parseExpPart_boundary h]
  simp only []
  rw [natChars_digitsVal, mkNum_int]

theorem parseStrBody_cons (c : Char) (cs : List Char) :
    parseStrBody (c :: cs) =
      (if c = '"' then some ([], cs)
       else if c = '\\' then parseEsc cs
       else if c.toNat < 32 then none
       else (parseStrBody cs).map (fun p => (c :: p.1, p.2))) := rfl

theorem parseEsc_cons (d : Char) (ds : List Char) :
    parseEsc (d :: ds) =
      (if d = '"' ∨ d = '\\' ∨ d = '/' then
         (parseStrBody ds).map (fun p => (d :: p.1, p.2))
       else if d = 'b' then (parseStrBody ds).map (fun p => (bsChar :: p.1, p.2))
       else if d = 't' then (parseStrBody ds).map (fun p => ('\t' :: p.1, p.2))
       else if d = 'n' then (parseStrBody ds).map (fun p => ('\n' :: p.1, p.2))
       else if d = 'f' then (parseStrBody ds).map (fun p => (ffChar :: p.1, p.2))
       else if d = 'r' then (parseStrBody ds).map (fun p => ('\r' :: p.1, p.2))
       else if d = 'u' then parseU ds
       else none) := rfl

theorem parseStrBody_esc (cs rest : List Char) :
    parseStrBody (escChars cs ++ '"' :: rest) = some (cs, rest) := by
  induction cs with
  | nil => rfl
  | cons c cs ih =>
    by_cases h1 : c = '"' ∨ c = '\\'
    · rw [escChars, if_pos h1, List.cons_append, List.cons_append, parseStrBody_cons,
        if_neg (by decide : ¬('\\' : Char) = '"'), if_pos rfl, parseEsc_cons,
        if_pos (by rcases h1 with h | h <;> simp [h]), ih]
      rfl
    · have h1a : c ≠ '"' := fun hc => h1 (Or.inl hc)
      have h1b : c ≠ '\\' := fun hc => h1 (Or.inr hc)
      by_cases h2 : c = bsChar
      · subst h2
        rw [escChars, if_neg (by decide), if_pos rfl, List.cons_append, List.cons_append,
          parseStrBody_cons, if_neg (by decide : ¬('\\' : Char) = '"'), if_pos rfl,
          parseEsc_cons, if_neg (by decide), if_pos rfl, ih]
        rfl
      · by_cases h3 : c = '\t'
        · subst h3
          rw [escChars, if_neg (by decide), if_neg (by decide), if_pos rfl,
            List.cons_append, List.cons_append, parseStrBody_cons,
            if_neg (by decide : ¬('\\' : Char) = '"'), if_pos rfl,
            parseEsc_cons, if_neg (by decide), if_neg (by decide), if_pos rfl, ih]
          rfl
        · by_cases h4 : c = '\n'
          · subst h4
            rw [escChars, if_neg (by decide), if_neg (by decide), if_neg (by decide),
              if_pos rfl, List.cons_append, List.cons_append, parseStrBody_cons,
              if_neg (by decide : ¬('\\' : Char) = '"'), if_pos rfl,
              parseEsc_cons, if_neg (by decide), if_neg (by decide), if_neg (by decide),
              if_pos rfl, ih]
            rfl
          · by_cases h5 : c = ffChar
            · subst h5
              rw [escChars, if_neg (by decide), if_neg (by decide), if_neg (by decide),
                if_neg (by decide), if_pos rfl, List.cons_append, List.cons_append,
                parseStrBody_cons, if_neg (by decide : ¬('\\' : Char) = '"'), if_pos rfl,
                parseEsc_cons, if_neg (by decide), if_neg (by decide), if_neg (by decide),
                if_neg (by decide), if_pos rfl, ih]
              rfl
            · by_cases h6 : c = '\r'
              · subst h6
                rw [escChars, if_neg (by decide), if_neg (by decide), if_neg (by decide),
                  if_neg (by decide), if_neg (by decide), if_pos rfl, List.cons_append,
                  List.cons_append, parseStrBody_cons,
                  if_neg (by decide : ¬('\\' : Char) = '"'), if_pos rfl,
                  parseEsc_cons, if_neg (by decide), if_neg (by decide),
                  if_neg (by decide), if_neg (by decide), if_neg (by decide),
                  if_pos rfl, ih]
                rfl
              · by_cases h7 : c.toNat < 32
                · rw [escChars, if_neg h1, if_neg h2, if_neg h3, if_neg h4, if_neg h5,
                    if_neg h6, if_pos h7]
                  simp only [List.cons_append]
                  rw [parseStrBody_cons, if_neg (by decide : ¬('\\' : Char) = '"'),
                    if_pos rfl, parseEsc_cons, if_neg (by decide), if_neg (by decide),
                    if_neg (by decide), if_neg (by decide), if_neg (by decide),
                    if_neg (by decide), if_pos rfl]
                  show parseU ('0' :: '0' :: hexDigit (c.toNat / 16)
                    :: hexDigit (c.toNat % 16) :: (escChars cs ++ '"' :: rest)) = _
                  rw [parseU]
                  have hhi : c.toNat / 16 < 16 := by omega
                  have hlo : c.toNat % 16 < 16 := by omega
                  rw [if_pos ⟨by decide, by decide, isHexDigit_hexDigit _ hhi,
                    isHexDigit_hexDigit _ hlo⟩, ih]
                  have hval : hexVal '0' * 4096 + hexVal '0' * 256 +
                      hexVal (hexDigit (c.toNat / 16)) * 16 +
                      hexVal (hexDigit (c.toNat % 16)) = c.toNat := by
                    rw [hexVal_hexDigit _ hhi, hexVal_hexDigit _ hlo,
                      (by decide : hexVal '0' = 0)]
                    omega
                  rw [hval, Char.ofNat_toNat]
                  rfl
                · rw [escChars, if_neg h1, if_neg h2, if_neg h3, if_neg h4, if_neg h5,
                    if_neg h6, if_neg h7, List.cons_append, parseStrBody_cons,
                    if_neg h1a, if_neg h1b, if_neg h7, ih]
                  rfl

theorem parseVal_succ (f : Nat) (c : Char) (s : List Char) :
    parseVal (f + 1) (c :: s) =
      (if c = 'n' then (dropLit ['u', 'l', 'l'] s).map (fun r => (JVal.jnull, r))
       else if c = 't' then (dropLit ['r', 'u', 'e'] s).map (fun r => (JVal.jbool true, r))
       else if c = 'f' then
         (dropLit ['a', 'l', 's', 'e'] s).map (fun r => (JVal.jbool false, r))
       else if c = '"' then
         match parseStrBody s with
         | some (body, r) => some (JVal.jstr (String.mk body), r)
         | none => none
       else if c = '[' then
         match skipWs s with
         | [] => none
         | d :: r => if d = ']' then some (JVal.jarr [], r)
                     else match parseItems1 f (d :: r) with
                          | some (vs, r2) => some (JVal.jarr vs, r2)
                          | none => none
       else if c = lbrace then
         match skipWs s with
         | [] => none
         | d :: r => if d = rbrace then some (JVal.jobj [], r)
                     else match parseFields1 f (d :: r) with
                          | some (fs, r2) => some (JVal.jobj fs, r2)
                          | none => none
       else if c = '-' then parseNumber true s
       else if c.isDigit then parseNumber false (c :: s)
       else none) := rfl

theorem parseItems1_succ (f : Nat) (s : List Char) :
    parseItems1 (f + 1) s =
      (match parseVal f s with
       | none => none
       | some (v, s1) =>
         match skipWs s1 with
         | [] => none
         | c :: s2 =>
           if c = ']' then some ([v], s2)
           else if c = ',' then
             match parseItems1 f (skipWs s2) with
             | some (vs, r) => some (v :: vs, r)
             | none => none
           else none) := rfl

theorem parseFields1_succ (f : Nat) (s : List Char) :
    parseFields1 (f + 1) s =
      (match s with
       | [] => none
       | c :: s1 =>
         if c = '"' then
           match parseStrBody s1 with
           | none => none
           | some (kcs, s2) =>
             match skipWs s2 with
             | [] => none
             | d :: s3 =>
               if d = ':' then
                 match parseVal f (skipWs s3) with
                 | none => none
                 | some (v, s4) =>
                   match skipWs s4 with
                   | [] => none
                   | e :: s5 =>
                     if e = rbrace then some ([(String.mk kcs, v)], s5)
                     else if e = ',' then
                       match parseFields1 f (skipWs s5) with
                       | some (fs, r) => some ((String.mk kcs, v) :: fs, r)
                       | none => none
                     else none
               else none
         else none) := rfl

theorem isDigit_not_special {c : Char} (h : c.isDigit = true) :
    c ≠ 'n' ∧ c ≠ 't' ∧ c ≠ 'f' ∧ c ≠ '"' ∧ c ≠ '[' ∧ c ≠ lbrace ∧ c ≠ '-' := by
  refine ⟨?_, ?_, ?_, ?_, ?_, ?_, ?_⟩ <;> · rintro rfl; revert h; decide

theorem isWs_of_isDigit {c : Char} (h : c.isDigit = true) : isWs c = false := by
  cases hw : isWs c
  · rfl
  · simp only [isWs, Bool.or_eq_true, decide_eq_true_eq] at hw
    rcases hw with ((rfl | rfl) | rfl) | rfl <;> exact absurd h (by decide)

theorem natChars_cons (m : Nat) :
    ∃ c cs, natChars m = c :: cs ∧ c.isDigit = true := by
  rcases hL : natChars m with _ | ⟨c, cs⟩
  · exact absurd hL (natChars_ne_nil m)
  · exact ⟨c, cs, rfl, natChars_all_digits m c (by rw [hL]; simp)⟩

theorem parseVal_num (f : Nat) (n : Int) {rest : List Char}
    (h : numBoundary rest = true) :
    parseVal (f + 1) (intChars n ++ rest) = some (.jnum n, rest) := by
  cases n with
  | ofNat m =>
    obtain ⟨c, cs, hL, hd⟩ := natChars_cons m
    obtain ⟨h1, h2, h3, h4, h5, h6, h7⟩ := isDigit_not_special hd
    rw [intChars, hL, List.cons_append, parseVal_succ]
    rw [if_neg h1, if_neg h2, if_neg h3, if_neg h4, if_neg h5, if_neg h6,
      if_neg h7, if_pos hd]
    rw [show c :: (cs ++ rest) = natChars m ++ rest by rw [hL]; rfl]
    rw [parseNumber_natChars false m h]
    simp
  | negSucc m =>
    rw [intChars, List.cons_append, parseVal_succ]
    rw [if_neg (by decide), if_neg (by decide), if_neg (by decide), if_neg (by decide),
      if_neg (by decide), if_neg (by decide), if_pos rfl]
    rw [parseNumber_natChars true (m + 1) h]
    simp [Int.negSucc_eq]

theorem noDigitStart_skipWs {c : Char} (h : isWs c = false) (s : List Char) :
    skipWs (c :: s) = c :: s :=
  skipWs_cons_of h s

theorem isDigit_not_closer {c : Char} (h : c.isDigit = true) :
    c ≠ ']' ∧ c ≠ rbrace := by
  constructor <;> · rintro rfl; revert h; decide

theorem decChars_cons (neg : Bool) (m : Nat) (e : Int) :
    ∃ c cs, decChars neg m e = c :: cs ∧ (c = '-' ∨ c.isDigit = true) := by
  unfold decChars
  cases neg
  · simp only [Bool.false_eq_true, if_false]
    by_cases hk : e.natAbs < (natChars m).length
    · have hpos : 1 ≤ (natChars m).length - e.natAbs := by omega
      obtain ⟨j, hj⟩ : ∃ j, (natChars m).length - e.natAbs = j + 1 :=
        ⟨(natChars m).length - e.natAbs - 1, by omega⟩
      obtain ⟨d, ds', hds, hd⟩ := natChars_cons m
      rw [if_pos hk, hj, hds, List.take_succ_cons, List.cons_append]
      exact ⟨d, _, rfl, Or.inr hd⟩
    · rw [if_neg hk]
      exact ⟨'0', _, rfl, Or.inr (by decide)⟩
  · simp only [if_pos rfl]
    exact ⟨'-', _, rfl, Or.inl rfl⟩

theorem sV_cons (v : JVal) :
    ∃ c cs, sV v = c :: cs ∧ c ≠ ']' ∧ c ≠ rbrace ∧ isWs c = false := by
  cases v with
  | jnull => exact ⟨'n', _, by rw [sV], by decide, by decide, by decide⟩
  | jbool b =>
    cases b
    · exact ⟨'f', _, by rw [sV], by decide, by decide, by decide⟩
    · exact ⟨'t', _, by rw [sV], by decide, by decide, by decide⟩
  | jnum n =>
    cases n with
    | ofNat m =>
      obtain ⟨c, cs, hL, hd⟩ := natChars_cons m
      obtain ⟨h1, h2⟩ := isDigit_not_closer hd
      exact ⟨c, cs, by rw [sV, intChars, hL], h1, h2, isWs_of_isDigit hd⟩
    | negSucc m => exact ⟨'-', _, by rw [sV, intChars], by decide, by decide, by decide⟩
  | jdec neg m e =>
    obtain ⟨c, cs, hL, hc⟩ := decChars_cons neg m e
    rcases hc with rfl | hd
    · exact ⟨'-', cs, by rw [sV, hL], by decide, by decide, by decide⟩
    · obtain ⟨h1, h2⟩ := isDigit_not_closer hd
      exact ⟨c, cs, by rw [sV, hL], h1, h2, isWs_of_isDigit hd⟩
  | jstr s => exact ⟨'"', _, by rw [sV], by decide, by decide, by decide⟩
  | jarr xs => exact ⟨'[', _, by rw [sV], by decide, by decide, by decide⟩
  | jobj fs => exact ⟨lbrace, _, by rw [sV], by decide, by decide, by decide⟩

theorem sV_ne_nil (v : JVal) : sV v ≠ [] := by
  obtain ⟨c, cs, h, -, -, -⟩ := sV_cons v
  simp [h]

theorem sV_len_pos (v : JVal) : 1 ≤ (sV v).length := by
  obtain ⟨c, cs, h, -, -, -⟩ := sV_cons v
  simp [h]

theorem sItems_len_pos (l : List JVal) : 1 ≤ (sItems l).length := by
  match l with
  | [] => rw [sItems]; simp
  | [x] => rw [sItems]; simp
  | x :: y :: ys => rw [sItems]; simp; omega

theorem sFields_len_pos (l : List (String × JVal)) : 1 ≤ (sFields l).length := by
  match l with
  | [] => rw [sFields]; simp
  | [(k, v)] => rw [sFields]; simp
  | (k, v) :: f :: fs => rw [sFields]; simp

theorem sFields_head (p : String × JVal) (fs : List (String × JVal)) :
    ∃ T, sFields (p :: fs) = '"' :: T := by
  obtain ⟨k, v⟩ := p
  cases fs with
  | nil => exact ⟨_, by rw [sFields]⟩
  | cons q qs => exact ⟨_, by rw [sFields]⟩

theorem sItems_head (x : JVal) (xs : List JVal) :
    ∃ T, sItems (x :: xs) = sV x ++ T := by
  cases xs with
  | nil => exact ⟨[']'], by rw [sItems]⟩
  | cons y ys => exact ⟨',' :: sItems (y :: ys), by rw [sItems]⟩

theorem numBoundary_cons_of {c : Char}
    (h : (c.isDigit || c = '.' || c = 'e' || c = 'E') = false) (s : List Char) :
    numBoundary (c :: s) = true := by
  simp only [numBoundary, h, Bool.not_false]

set_option maxHeartbeats 1000000

theorem parse_roundtrip : ∀ f : Nat,
    (∀ (v : JVal) (rest : List Char), intOnly v = true → (sV v).length ≤ f →
        numBoundary rest = true → parseVal f (sV v ++ rest) = some (v, rest))
    ∧ (∀ (x : JVal) (xs : List JVal) (rest : List Char), intOnlyL (x :: xs) = true →
        (sItems (x :: xs)).length ≤ f → numBoundary rest = true →
        parseItems1 f (sItems (x :: xs) ++ rest) = some (x :: xs, rest))
    ∧ (∀ (p : String × JVal) (fs : List (String × JVal)) (rest : List Char),
        intOnlyF (p :: fs) = true →
        (sFields (p :: fs)).length ≤ f → numBoundary rest = true →
        parseFields1 f (sFields (p :: fs) ++ rest) = some (p :: fs, rest)) := by
  intro f
  induction f with
  | zero =>
    refine ⟨?_, ?_, ?_⟩
    · intro v rest _ hlen _
      have := sV_len_pos v
      omega
    · intro x xs rest _ hlen _
      have := sItems_len_pos (x :: xs)
      omega
    · intro p fs rest _ hlen _
      have := sFields_len_pos (p :: fs)
      omega
  | succ f ih =>
    obtain ⟨ihV, ihI, ihF⟩ := ih
    refine ⟨?_, ?_, ?_⟩
    · intro v rest hio hlen hnd
      cases v with
      | jnull =>
        rw [sV]
        simp only [List.cons_append, List.nil_append]
        rw [parseVal_succ, if_pos rfl]
        rw [show ('u' :: 'l' :: 'l' :: rest : List Char) = ['u', 'l', 'l'] ++ rest from rfl,
          dropLit_append]
        rfl
      | jbool b =>
        cases b
        · rw [sV]
          simp only [List.cons_append, List.nil_append]
          rw [parseVal_succ, if_neg (by decide), if_neg (by decide), if_pos rfl]
          rw [show ('a' :: 'l' :: 's' :: 'e' :: rest : List Char) = ['a', 'l', 's', 'e'] ++ rest
            from rfl, dropLit_append]
          rfl
        · rw [sV]
          simp only [List.cons_append, List.nil_append]
          rw [parseVal_succ, if_neg (by decide), if_pos rfl]
          rw [show ('r' :: 'u' :: 'e' :: rest : List Char) = ['r', 'u', 'e'] ++ rest from rfl,
            dropLit_append]
          rfl
      | jnum n =>
        rw [sV]
        exact parseVal_num f n hnd
      | jdec neg m e =>
        rw [intOnly] at hio
        exact Bool.noConfusion hio
      | jstr s =>
        rw [sV]
        simp only [List.cons_append, List.append_assoc, List.singleton_append]
        rw [parseVal_succ, if_neg (by decide), if_neg (by decide), if_neg (by decide),
          if_pos rfl]
        rw [parseStrBody_esc]
        rfl
      | jarr xs =>
        cases xs with
        | nil =>
          rw [sV, sItems]
          simp only [List.cons_append, List.singleton_append]
          rw [parseVal_succ, if_neg (by decide), if_neg (by decide), if_neg (by decide),
            if_neg (by decide), if_pos rfl]
          rw [skipWs_cons_of (by decide)]
          simp only []
          simp
        | cons x xs =>
          rw [intOnly] at hio
          rw [sV] at hlen ⊢
          simp only [List.length_cons] at hlen
          have hfuel : (sItems (x :: xs)).length ≤ f := by omega
          obtain ⟨T, hT⟩ := sItems_head x xs
          obtain ⟨c, cs, hc, hc1, hc2, hcw⟩ := sV_cons x
          rw [List.cons_append, parseVal_succ, if_neg (by decide), if_neg (by decide),
            if_neg (by decide), if_neg (by decide), if_pos rfl]
          rw [hT, hc]
          simp only [List.cons_append, List.append_assoc]
          rw [skipWs_cons_of hcw]
          simp only []
          rw [if_neg hc1]
          rw [show c :: (cs ++ (T ++ rest)) = sItems (x :: xs) ++ rest by
            rw [hT, hc]; simp [List.append_assoc]]
          rw [ihI x xs rest hio hfuel hnd]
      | jobj fs =>
        cases fs with
        | nil =>
          rw [sV, sFields]
          simp only [List.cons_append, List.singleton_append]
          rw [parseVal_succ, if_neg (by decide), if_neg (by decide), if_neg (by decide),
            if_neg (by decide), if_neg (by decide), if_pos rfl]
          rw [skipWs_cons_of (by decide)]
          simp only []
          simp
        | cons p fs =>
          rw [intOnly] at hio
          rw [sV] at hlen ⊢
          simp only [List.length_cons] at hlen
          have hfuel : (sFields (p :: fs)).length ≤ f := by omega
          obtain ⟨T, hT⟩ := sFields_head p fs
          rw [List.cons_append, parseVal_succ, if_neg (by decide), if_neg (by decide),
            if_neg (by decide), if_neg (by decide), if_neg (by decide), if_pos rfl]
          rw [hT]
          simp only [List.cons_append]
          rw [skipWs_cons_of (by decide)]
          simp only []
          rw [if_neg (by decide)]
          rw [show '"' :: (T ++ rest) = sFields (p :: fs) ++ rest by rw [hT]; rfl]
          rw [ihF p fs rest hio hfuel hnd]
    · intro x xs rest hio hlen hnd
      rw [intOnlyL, Bool.and_eq_true] at hio
      obtain ⟨hiox, hioxs⟩ := hio
      cases xs with
      | nil =>
        rw [sItems] at hlen ⊢
        simp only [List.length_append, List.length_cons, List.length_nil] at hlen
        have hfuel : (sV x).length ≤ f := by omega
        rw [parseItems1_succ, List.append_assoc, List.singleton_append]
        rw [ihV x (']' :: rest) hiox hfuel (numBoundary_cons_of (by decide) rest)]
        simp only []
        rw [skipWs_cons_of (by decide)]
        simp only []
        simp
      | cons y ys =>
        rw [sItems] at hlen ⊢
        have h2 := sItems_len_pos (y :: ys)
        simp only [List.length_append, List.length_cons] at hlen
        have hfx : (sV x).length ≤ f := by omega
        have hfi : (sItems (y :: ys)).length ≤ f := by omega
        rw [parseItems1_succ, List.append_assoc, List.cons_append]
        rw [ihV x (',' :: (sItems (y :: ys) ++ rest)) hiox hfx
          (numBoundary_cons_of (by decide) _)]
        simp only []
        rw [skipWs_cons_of (by decide)]
        simp only []
        rw [if_neg (by decide), if_pos trivial]
        obtain ⟨Ty, hTy⟩ := sItems_head y ys
        obtain ⟨cy, csy, hcy, -, -, hcyw⟩ := sV_cons y
        rw [show sItems (y :: ys) ++ rest = cy :: (csy ++ (Ty ++ rest)) by
          rw [hTy, hcy]; simp [List.append_assoc]]
        rw [skipWs_cons_of hcyw]
        rw [show cy :: (csy ++ (Ty ++ rest)) = sItems (y :: ys) ++ rest by
          rw [hTy, hcy]; simp [List.append_assoc]]
        rw [ihI y ys rest hioxs hfi hnd]
    · intro p fs rest hio hlen hnd
      obtain ⟨k, v⟩ := p
      rw [intOnlyF, Bool.and_eq_true] at hio
      obtain ⟨hiov, hiofs⟩ := hio
      cases fs with
      | nil =>
        rw [sFields] at hlen ⊢
        simp only [List.length_cons, List.length_append, List.length_nil] at hlen
        have hfv : (sV v).length ≤ f := by omega
        rw [parseFields1_succ]
        simp only [List.cons_append, List.append_assoc, List.singleton_append,
          List.nil_append]
        rw [if_pos trivial]
        rw [parseStrBody_esc]
        simp only []
        rw [skipWs_cons_of (by decide)]
        simp only []
        rw [if_pos trivial]
        obtain ⟨cv, csv, hcv, -, -, hcvw⟩ := sV_cons v
        rw [show sV v ++ rbrace :: rest = cv :: (csv ++ (rbrace :: rest)) by
          rw [hcv]; simp]
        rw [skipWs_cons_of hcvw]
        rw [show cv :: (csv ++ (rbrace :: rest)) = sV v ++ (rbrace :: rest) by
          rw [hcv]; simp]
        rw [ihV v (rbrace :: rest) hiov hfv (numBoundary_cons_of (by decide) rest)]
        simp only []
        rw [skipWs_cons_of (by decide)]
        simp only []
        rw [if_pos trivial]
      | cons q qs =>
        rw [sFields] at hlen ⊢
        have h2 := sFields_len_pos (q :: qs)
        simp only [List.length_cons, List.length_append] at hlen
        have hfv : (sV v).length ≤ f := by omega
        have hff : (sFields (q :: qs)).length ≤ f := by omega
        rw [parseFields1_succ]
        simp only [List.cons_append, List.append_assoc]
        rw [if_pos trivial]
        rw [parseStrBody_esc]
        simp only []
        rw [skipWs_cons_of (by decide)]
        simp only []
        rw [if_pos trivial]
        obtain ⟨cv, csv, hcv, -, -, hcvw⟩ := sV_cons v
        rw [show sV v ++ ',' :: (sFields (q :: qs) ++ rest) =
            cv :: (csv ++ (',' :: (sFields (q :: qs) ++ rest))) by rw [hcv]; simp]
        rw [skipWs_cons_of hcvw]
        rw [show cv :: (csv ++ (',' :: (sFields (q :: qs) ++ rest))) =
            sV v ++ (',' :: (sFields (q :: qs) ++ rest)) by rw [hcv]; simp]
        rw [ihV v (',' :: (sFields (q :: qs) ++ rest)) hiov hfv
          (numBoundary_cons_of (by decide) _)]
        simp only []
        rw [skipWs_cons_of (by decide)]
        simp only []
        rw [if_neg (by decide), if_pos trivial]
        obtain ⟨Tq, hTq⟩ := sFields_head q qs
        rw [show sFields (q :: qs) ++ rest = '"' :: (Tq ++ rest) by rw [hTq]; rfl]
        rw [skipWs_cons_of (by decide)]
        rw [show ('"' : Char) :: (Tq ++ rest) = sFields (q :: qs) ++ rest by
          rw [hTq]; rfl]
        rw [ihF q qs rest hiofs hff hnd]

theorem jsonParse_sV (v : JVal) (hio : intOnly v = true) :
    jsonParse (String.mk (sV v)) = some v := by
  have h := (parse_roundtrip ((sV v).length + 1)).1 v [] hio (by omega) rfl
  rw [List.append_nil] at h
  obtain ⟨c, cs, hc, -, -, hcw⟩ := sV_cons v
  unfold jsonParse
  show (match parseVal ((sV v).length + 1) (skipWs (sV v)) with
    | some (v, r) => if skipWs r = [] then some v else none
    | _ => none) = some v
  rw [hc, skipWs_cons_of hcw, ← hc, h]
  rfl

theorem decode_stringify (v : JVal) (hio : intOnly v = true) :
    decode (String.mk (sV v)) = v := by
  unfold decode
  rw [jsonParse_sV v hio]

theorem decode_encode (v : JVal) (hio : intOnly v = true)
    (hv : ∀ s, v = JVal.jstr s → jsonParse s = none) :
    decode (encode v) = v := by
  cases v with
  | jstr s =>
    show decode s = JVal.jstr s
    unfold decode
    rw [hv s rfl]
  | jnull => exact decode_stringify JVal.jnull hio
  | jbool b => exact decode_stringify (JVal.jbool b) hio
  | jnum n => exact decode_stringify (JVal.jnum n) hio
  | jdec neg m e =>
    rw [intOnly] at hio
    exact Bool.noConfusion hio
  | jarr xs => exact decode_stringify (JVal.jarr xs) hio
  | jobj fs => exact decode_stringify (JVal.jobj fs) hio

/-!
The claims.
-/

/-- C2: on a connection.update close event, the logged-out status code
terminates the controller without creating a handle and with the
credentials untouched; any other status code — including an absent
cause — restarts, creating exactly one fresh session handle and
leaving the credentials untouched; and once terminated, no later close
event ever creates another handle. -/
theorem claim2_close_transitions (s : CtrlState) (code : Option Nat) :
    (code = some disconnectLoggedOut →
      (onCloseUpdate s code).terminated = true ∧
      (onCloseUpdate s code).handles = s.handles ∧
      (onCloseUpdate s code).creds = s.creds) ∧
    (code ≠ some disconnectLoggedOut →
      (onCloseUpdate s code).handles = s.handles + 1 ∧
      (onCloseUpdate s code).terminated = s.terminated ∧
      (onCloseUpdate s code).creds = s.creds) ∧
    (∀ evs, s.terminated = true → runCloses s evs = s) := by
  refine ⟨?_, ?_, ?_⟩
  · intro h
    rw [onCloseUpdate, if_neg (by simp [h])]
    exact ⟨rfl, rfl, rfl⟩
  · intro h
    rw [onCloseUpdate, if_pos h]
    exact ⟨rfl, rfl, rfl⟩
  · intro evs h
    cases evs with
    | nil => rfl
    | cons e es => rw [runCloses, if_pos h]

/-- C2 witness: a concrete state and the logged-out code, and a
concrete restart case. -/
theorem claim2_close_transitions_witness :
    (onCloseUpdate ⟨1, false, "creds"⟩ (some 401)).terminated = true ∧
    (onCloseUpdate ⟨1, false, "creds"⟩ (some 401)).handles = 1 ∧
    (onCloseUpdate ⟨1, false, "creds"⟩ (some 428)).handles = 2 ∧
    runCloses ⟨1, true, "creds"⟩ [some 428, none] = ⟨1, true, "creds"⟩ := by
  refine ⟨?_, ?_, ?_, ?_⟩
  · exact ((claim2_close_transitions ⟨1, false, "creds"⟩ (some 401)).1 rfl).1
  · exact ((claim2_close_transitions ⟨1, false, "creds"⟩ (some 401)).1 rfl).2.1
  · exact ((claim2_close_transitions ⟨1, false, "creds"⟩ (some 428)).2.1 (by simp [disconnectLoggedOut])).1
  · exact (claim2_close_transitions ⟨1, true, "creds"⟩ none).2.2 [some 428, none] rfl

/-- C3: every set and get against a client whose isReady() is false
fails with the NotConnected error and never surfaces a transport
error, whatever the transport would have done; a freshly constructed
client is not ready, and a client that observed an error event is not
ready. -/
theorem claim3_not_connected_guard (c : RedisClientSt) (h : c.isReady = false)
    (tf : Bool) (k : String) (v : JVal) (ttl : Option Nat) :
    rcSet c tf k v ttl = .error .notConnected ∧
    rcGet c tf k = .error .notConnected ∧
    rcSet c tf k v ttl ≠ .error .transport ∧
    rcGet c tf k ≠ .error .transport ∧
    (∀ cfg, (mkRedisClient cfg).isReady = false) ∧
    (∀ c2 : RedisClientSt, (onErrorEvent c2).isConnected = false ∧
      (onErrorEvent c2).isReady = false) := by
  have hset : rcSet c tf k v ttl = .error .notConnected := by
    rw [rcSet, if_pos h]
  have hget : rcGet c tf k = .error .notConnected := by
    rw [rcGet, if_pos h]
  refine ⟨hset, hget, by simp [hset], by simp [hget], ?_, ?_⟩
  · intro cfg
    rfl
  · intro c2
    exact ⟨rfl, by simp [onErrorEvent, RedisClientSt.isReady]⟩

/-- C3 witness: the freshly constructed client with default
configuration refuses a get with NotConnected. -/
theorem claim3_not_connected_guard_witness :
    rcGet (mkRedisClient none) true "x" = .error .notConnected ∧
    rcGet (mkRedisClient none) true "x" ≠ .error .transport :=
  ⟨(claim3_not_connected_guard (mkRedisClient none) rfl true "x" JVal.jnull none).2.1,
   (claim3_not_connected_guard (mkRedisClient none) rfl true "x" JVal.jnull none).2.2.2.1⟩

/-- C4: for every attempt number up to the cap the reconnect strategy
returns the capped linear delay min(n * 50, 500) ms, and past the cap
it returns an error instead of a delay. -/
theorem claim4_reconnect_strategy (maxRetries n : Nat) :
    (n ≤ maxRetries → reconnectStrategy maxRetries n = .ok (min (n * 50) 500)) ∧
    (n > maxRetries → reconnectStrategy maxRetries n = .error ()) := by
  constructor
  · intro h
    rw [reconnectStrategy, if_neg (by omega)]
  · intro h
    rw [reconnectStrategy, if_pos h]

/-- C4 witness: with cap 3, attempt 2 waits 100 ms, attempt 3 waits
150 ms, attempt 11 would wait the ceiling 500 ms, and attempt 4 is
refused. -/
theorem claim4_reconnect_strategy_witness :
    reconnectStrategy 3 2 = .ok 100 ∧
    reconnectStrategy 3 3 = .ok 150 ∧
    reconnectStrategy 20 11 = .ok 500 ∧
    reconnectStrategy 3 4 = .error () := by
  refine ⟨?_, ?_, ?_, ?_⟩
  · simpa using (claim4_reconnect_strategy 3 2).1 (by norm_num)
  · simpa using (claim4_reconnect_strategy 3 3).1 (by norm_num)
  · simpa using (claim4_reconnect_strategy 20 11).1 (by norm_num)
  · exact (claim4_reconnect_strategy 3 4).2 (by norm_num)

/-- C10: the constructor turns a falsy configured maxRetries — absent
or zero — into the default cap 3, so the strategy still grants up to
three delayed attempts and refuses the fourth even when the caller
asked for no retries. -/
theorem claim10_falsy_max_retries (n : Nat) :
    (mkRedisClient none).maxRetries = 3 ∧
    (mkRedisClient (some 0)).maxRetries = 3 ∧
    (∀ m, m ≠ 0 → (mkRedisClient (some m)).maxRetries = m) ∧
    (n ≤ 3 → reconnectStrategy (mkRedisClient (some 0)).maxRetries n =
      .ok (min (n * 50) 500)) ∧
    (3 < n → reconnectStrategy (mkRedisClient (some 0)).maxRetries n = .error ()) := by
  refine ⟨rfl, rfl, ?_, ?_, ?_⟩
  · intro m hm
    simp [mkRedisClient, constructorMaxRetries, hm]
  · intro h
    rw [reconnectStrategy, if_neg (by simp [mkRedisClient, constructorMaxRetries]; omega)]
  · intro h
    rw [reconnectStrategy, if_pos (by simp [mkRedisClient, constructorMaxRetries]; omega)]

/-- C10 witness: with configured maxRetries 0 the third attempt is
still granted a delay and the fourth is refused. -/
theorem claim10_falsy_max_retries_witness :
    reconnectStrategy (mkRedisClient (some 0)).maxRetries 3 = .ok 150 ∧
    reconnectStrategy (mkRedisClient (some 0)).maxRetries 4 = .error () :=
  ⟨by simpa using (claim10_falsy_max_retries 3).2.2.2.1 (by norm_num),
   (claim10_falsy_max_retries 4).2.2.2.2 (by norm_num)⟩

/-- C6: issuing a pairing code stores it under the key derived from
the phone number with a 300-second TTL, and a second issuance for the
same phone number overwrites the same key, so afterwards the key holds
the second code only. -/
theorem claim6_pairing_code_cache (c : RedisClientSt) (h : c.isReady = true)
    (phone code1 code2 : String) :
    ∃ c2 c3,
      handlePairing c false phone code1 = .ok c2 ∧
      c2.store (pairingKey phone) = some (code1, some 300) ∧
      handlePairing c2 false phone code2 = .ok c3 ∧
      c3.store (pairingKey phone) = some (code2, some 300) ∧
      rcGet c3 false (pairingKey phone) = .ok (decode code2) := by
  have hr2 : ∀ st : Store, ({ c with store := st } : RedisClientSt).isReady = true := by
    intro st
    simpa [RedisClientSt.isReady] using h
  refine ⟨{ c with store := storeSet c.store (pairingKey phone) code1 (some 300) },
    { c with store :=
        (storeSet (storeSet c.store (pairingKey phone) code1 (some 300))
          (pairingKey phone) code2 (some 300)) }, ?_, ?_, ?_, ?_, ?_⟩
  · rw [handlePairing, rcSet, if_neg (by simp [h])]
    rfl
  · simp [storeSet]
  · rw [handlePairing, rcSet, if_neg (by simp [hr2 _])]
    rfl
  · simp [storeSet]
  · rw [rcGet, if_neg (by simp [hr2 _])]
    simp [storeSet]

/-- C6 witness: two issuances for phone number 555 on a ready client
leave only the second code under the shared key. -/
theorem claim6_pairing_code_cache_witness :
    ∃ c2 c3,
      handlePairing ⟨true, true, 3, emptyStore⟩ false "555" "CODE1111" = .ok c2 ∧
      c2.store (pairingKey "555") = some ("CODE1111", some 300) ∧
      handlePairing c2 false "555" "CODE2222" = .ok c3 ∧
      c3.store (pairingKey "555") = some ("CODE2222", some 300) ∧
      rcGet c3 false (pairingKey "555") = .ok (decode "CODE2222") :=
  claim6_pairing_code_cache ⟨true, true, 3, emptyStore⟩ rfl "555" "CODE1111" "CODE2222"

/-- C1 counterexample: the string value 123 breaks the round trip.
Encoding passes the string through unchanged, decoding then parses it
as the number 123, both at the codec and through set followed by get
on a ready store. -/
theorem claim1_roundtrip_counterexample :
    decode (encode (JVal.jstr "123")) = JVal.jnum 123 ∧
    decode (encode (JVal.jstr "123")) ≠ JVal.jstr "123" ∧
    (do
      let c1 ← rcSet ⟨true, true, 3, emptyStore⟩ false "k" (JVal.jstr "123") none
      rcGet c1 false "k") = Except.ok (JVal.jnum 123) := by
  refine ⟨rfl, ?_, rfl⟩
  intro hcon
  exact JVal.noConfusion hcon

/-- C1 amended: decode inverts encode on every integer-numbered value
that is not a string, and on exactly those strings the whole-text
JSON parse — faithful to JSON.parse, including fractions, exponents,
whitespace and the full escape set — rejects; for such values, set
followed by get on a ready store returns the value itself.  (A string
that parses as JSON, such as 123 or 1.5, comes back as the parsed
number instead; values holding non-integral numbers are where the
IEEE-double semantics left outside the model begin.) -/
theorem claim1_roundtrip_amended (v : JVal) (hio : intOnly v = true)
    (hv : ∀ s, v = JVal.jstr s → jsonParse s = none)
    (c : RedisClientSt) (h : c.isReady = true) (k : String) (ttl : Option Nat) :
    decode (encode v) = v ∧
    ∃ c2, rcSet c false k v ttl = .ok c2 ∧ rcGet c2 false k = .ok v := by
  refine ⟨decode_encode v hio hv, ⟨{ c with store := storeSet c.store k (encode v) (effectiveTtl ttl) }, ?_, ?_⟩⟩
  · rw [rcSet, if_neg (by simp [h])]
    rfl
  · have hr2 : ({ c with store := storeSet c.store k (encode v) (effectiveTtl ttl) } :
        RedisClientSt).isReady = true := by
      simpa [RedisClientSt.isReady] using h
    rw [rcGet, if_neg (by simp [hr2])]
    simp only [storeSet]
    rw [if_pos trivial]
    show Except.ok (decode (encode v)) = Except.ok v
    rw [decode_encode v hio hv]

/-- C1 amended witness: a nested structured value and a non-JSON
string both survive the round trip on a ready store. -/
theorem claim1_roundtrip_amended_witness :
    (decode (encode (JVal.jobj [("a", JVal.jarr [JVal.jnum 0, JVal.jbool true]),
        ("b", JVal.jnull)])) =
      JVal.jobj [("a", JVal.jarr [JVal.jnum 0, JVal.jbool true]), ("b", JVal.jnull)]) ∧
    (decode (encode (JVal.jstr "hello")) = JVal.jstr "hello") ∧
    ∃ c2, rcSet ⟨true, true, 3, emptyStore⟩ false "k" (JVal.jstr "hello") none = .ok c2 ∧
      rcGet c2 false "k" = .ok (JVal.jstr "hello") := by
  refine ⟨?_, ?_, ?_⟩
  · exact (claim1_roundtrip_amended
      (JVal.jobj [("a", JVal.jarr [JVal.jnum 0, JVal.jbool true]), ("b", JVal.jnull)])
      rfl (fun s hs => by cases hs) ⟨true, true, 3, emptyStore⟩ rfl "k" none).1
  · exact (claim1_roundtrip_amended (JVal.jstr "hello") rfl
      (fun s hs => by cases hs; rfl) ⟨true, true, 3, emptyStore⟩ rfl "k" none).1
  · exact (claim1_roundtrip_amended (JVal.jstr "hello") rfl
      (fun s hs => by cases hs; rfl) ⟨true, true, 3, emptyStore⟩ rfl "k" none).2

/-- C9: on a ready store, get returns the null sentinel for an absent
key, after storing the null value (whose stored text is null), and
after storing the plain string null — the three cases are
indistinguishable to the caller, and the stored texts of the latter
two coincide. -/
theorem claim9_null_indistinguishable (c : RedisClientSt) (h : c.isReady = true)
    (k : String) (ttl : Option Nat) :
    (c.store k = none → rcGet c false k = .ok JVal.jnull) ∧
    (∀ c2, rcSet c false k JVal.jnull ttl = .ok c2 →
      rcGet c2 false k = .ok JVal.jnull) ∧
    (∀ c2, rcSet c false k (JVal.jstr "null") ttl = .ok c2 →
      rcGet c2 false k = .ok JVal.jnull) ∧
    encode JVal.jnull = encode (JVal.jstr "null") := by
  have hr2 : ∀ st : Store, ({ c with store := st } : RedisClientSt).isReady = true := by
    intro st
    simpa [RedisClientSt.isReady] using h
  refine ⟨?_, ?_, ?_, rfl⟩
  · intro habs
    rw [rcGet, if_neg (by simp [h]), habs]
    rfl
  · intro c2 hset
    rw [rcSet, if_neg (by simp [h])] at hset
    cases hset
    rw [rcGet, if_neg (by simp [hr2 _])]
    simp only [storeSet, if_pos rfl]
    rfl
  · intro c2 hset
    rw [rcSet, if_neg (by simp [h])] at hset
    cases hset
    rw [rcGet, if_neg (by simp [hr2 _])]
    simp only [storeSet, if_pos rfl]
    rfl

/-- C9 witness: the three gets on concrete ready stores — key absent,
null stored, the string null stored — all return the null sentinel. -/
theorem claim9_null_indistinguishable_witness :
    rcGet ⟨true, true, 3, emptyStore⟩ false "x" = .ok JVal.jnull ∧
    rcGet ⟨true, true, 3,
      storeSet emptyStore "x" (encode JVal.jnull) (effectiveTtl none)⟩ false "x" =
      .ok JVal.jnull ∧
    rcGet ⟨true, true, 3,
      storeSet emptyStore "x" (encode (JVal.jstr "null")) (effectiveTtl none)⟩ false "x" =
      .ok JVal.jnull :=
  ⟨(claim9_null_indistinguishable ⟨true, true, 3, emptyStore⟩ rfl "x" none).1 rfl,
   (claim9_null_indistinguishable ⟨true, true, 3, emptyStore⟩ rfl "x" none).2.1 _ rfl,
   (claim9_null_indistinguishable ⟨true, true, 3, emptyStore⟩ rfl "x" none).2.2.1 _ rfl⟩

theorem storeDel_shift (ks : List String) (st : Store) (n : Nat) :
    ks.foldl
      (fun acc k => if (acc.2 k).isSome then (acc.1 + 1, storeRemove acc.2 k) else acc)
      (n, st) =
    ((ks.foldl
      (fun acc k => if (acc.2 k).isSome then (acc.1 + 1, storeRemove acc.2 k) else acc)
      (0, st)).1 + n,
     (ks.foldl
      (fun acc k => if (acc.2 k).isSome then (acc.1 + 1, storeRemove acc.2 k) else acc)
      (0, st)).2) := by
  induction ks generalizing n st with
  | nil => simp
  | cons k ks ih =>
    simp only [List.foldl_cons]
    by_cases hk : (st k).isSome
    · simp only [if_pos hk]
      rw [ih _ (n + 1), ih _ (0 + 1)]
      simp only [Prod.mk.injEq]
      exact ⟨by omega, trivial⟩
    · simp only [if_neg hk]
      exact ih st n

theorem storeDel_cons (st : Store) (k : String) (ks : List String) :
    storeDel st (k :: ks) =
      if (st k).isSome then
        ((storeDel (storeRemove st k) ks).1 + 1, (storeDel (storeRemove st k) ks).2)
      else storeDel st ks := by
  unfold storeDel
  simp only [List.foldl_cons]
  by_cases hk : (st k).isSome
  · simp only [if_pos hk]
    rw [storeDel_shift]
  · simp only [if_neg hk]

theorem storeDel_absent (st : Store) (ks : List String)
    (h : ∀ k ∈ ks, st k = none) : storeDel st ks = (0, st) := by
  induction ks with
  | nil => rfl
  | cons k ks ih =>
    rw [storeDel_cons, if_neg (by simp [h k (by simp)])]
    exact ih (fun q hq => h q (by simp [hq]))

theorem storeDel_count_nodup (st : Store) (ks : List String) (h : ks.Nodup) :
    (storeDel st ks).1 = (ks.filter (fun k => (st k).isSome)).length := by
  induction ks generalizing st with
  | nil => rfl
  | cons k ks ih =>
    obtain ⟨hk, hks⟩ := List.nodup_cons.mp h
    rw [storeDel_cons]
    by_cases hp : (st k).isSome
    · rw [if_pos hp, List.filter_cons_of_pos (by simpa using hp)]
      have hcong : ks.filter (fun q => ((storeRemove st k) q).isSome) =
          ks.filter (fun q => (st q).isSome) := by
        apply List.filter_congr
        intro q hq
        have : q ≠ k := fun hqk => hk (hqk ▸ hq)
        simp [storeRemove, this]
      rw [ih (storeRemove st k) hks, hcong, List.length_cons]
    · rw [if_neg hp, List.filter_cons_of_neg (by simpa using hp)]
      exact ih st hks

theorem storeDel_preserve_none (st : Store) (ks : List String) (q : String)
    (h : st q = none) : (storeDel st ks).2 q = none := by
  induction ks generalizing st with
  | nil => exact h
  | cons k ks ih =>
    rw [storeDel_cons]
    by_cases hp : (st k).isSome
    · rw [if_pos hp]
      exact ih (storeRemove st k) (by simp [storeRemove, h])
    · rw [if_neg hp]
      exact ih st h

theorem storeDel_removes (st : Store) (ks : List String) :
    ∀ q ∈ ks, (storeDel st ks).2 q = none := by
  induction ks generalizing st with
  | nil => intro q hq; cases hq
  | cons k ks ih =>
    intro q hq
    rw [storeDel_cons]
    rcases List.mem_cons.mp hq with rfl | hq2
    · by_cases hp : (st q).isSome
      · rw [if_pos hp]
        exact storeDel_preserve_none _ _ _ (by simp [storeRemove])
      · rw [if_neg hp]
        exact storeDel_preserve_none _ _ _ (by simpa using hp)
    · by_cases hp : (st k).isSome
      · rw [if_pos hp]
        exact ih (storeRemove st k) q hq2
      · rw [if_neg hp]
        exact ih st q hq2

/-- C8: delete accepts a single key or a key list and returns the
count of keys actually removed — 0 when none of the given keys
existed, and for a duplicate-free key list exactly the number of
those keys present, every one of which no longer exists afterwards. -/
theorem claim8_delete_count (c : RedisClientSt) (h : c.isReady = true)
    (keys : String ⊕ List String) (habs : ∀ k ∈ normalizeKeys keys, c.store k = none)
    (ks : List String) (hnd : ks.Nodup) :
    rcDelete c false keys = .ok (0, c) ∧
    ∃ c2, rcDelete c false (Sum.inr ks) =
        .ok ((ks.filter (fun k => (c.store k).isSome)).length, c2) ∧
      ∀ k ∈ ks, rcExists c2 false k = .ok false := by
  have hr2 : ∀ st : Store, ({ c with store := st } : RedisClientSt).isReady = true := by
    intro st
    simpa [RedisClientSt.isReady] using h
  constructor
  · rw [rcDelete, if_neg (by simp [h])]
    by_cases hemp : (normalizeKeys keys).isEmpty
    · simp only [hemp]
      rfl
    · simp only [hemp]
      rw [storeDel_absent c.store (normalizeKeys keys) habs]
      rfl
  · refine ⟨{ c with store := (storeDel c.store ks).2 }, ?_, ?_⟩
    · rw [rcDelete, if_neg (by simp [h])]
      cases ks with
      | nil => rfl
      | cons k0 ks0 =>
        simp only [normalizeKeys, List.isEmpty_cons]
        rw [if_neg (by simp), if_neg (by simp)]
        rw [storeDel_count_nodup c.store (k0 :: ks0) hnd]
    · intro k hk
      rw [rcExists, if_neg (by simp [hr2 _])]
      have := storeDel_removes c.store ks k hk
      simp only at this ⊢
      rw [this]
      rfl

/-- C8 witness: deleting the pair k1, k2 from a ready store holding
only k1 removes one key and k1 no longer exists; deleting an absent
key removes nothing. -/
theorem claim8_delete_count_witness :
    rcDelete ⟨true, true, 3, storeSet emptyStore "k1" "x" none⟩ false (Sum.inl "z") =
      .ok (0, ⟨true, true, 3, storeSet emptyStore "k1" "x" none⟩) ∧
    ∃ c2, rcDelete ⟨true, true, 3, storeSet emptyStore "k1" "x" none⟩ false
        (Sum.inr ["k1", "k2"]) = .ok (1, c2) ∧
      rcExists c2 false "k1" = .ok false := by
  have hmain := claim8_delete_count ⟨true, true, 3, storeSet emptyStore "k1" "x" none⟩ rfl
    (Sum.inl "z") (by intro k hk; simp [normalizeKeys] at hk; subst hk; rfl)
    ["k1", "k2"] (by simp)
  refine ⟨hmain.1, ?_⟩
  obtain ⟨c2, hdel, hex⟩ := hmain.2
  exact ⟨c2, hdel, hex "k1" (by simp)⟩

/-- C5: when a notify message is auto-replied (inbound, replies
enabled, not a newsletter) and no session call rejects, the handler
performs exactly, in order: the optional trigger-phrase requests,
then readMessages on the triggering key, presenceSubscribe, a 500 ms
delay, composing, a 2000 ms delay, paused, and the send — one ordered
sequential list, never reordered. -/
theorem claim5_reply_choreography (env : DispatchEnv) (hfail : ∀ e, env.fails e = false)
    (m : WAMsg) (rid : Option String) (tr : List Effect) (t : String)
    (htext : msgText m = some t)
    (hfrom : m.fromMe = false) (hdo : env.doReplies = true)
    (hnews : env.isNewsletter m.remoteJid = false) :
    processMsg env rid tr m = .ok (tr
      ++ (if t = "requestPlaceholder" ∧ rid = none then
            [Effect.requestPlaceholderResend m.keyId] else [])
      ++ (if t = "onDemandHistSync" then
            [Effect.fetchMessageHistory 50 m.keyId m.messageTimestamp] else [])
      ++ [Effect.readMessages m.keyId, Effect.presenceSubscribe m.remoteJid,
          Effect.delayMs 500, Effect.sendPresenceUpdate "composing" m.remoteJid,
          Effect.delayMs 2000, Effect.sendPresenceUpdate "paused" m.remoteJid,
          Effect.sendMessage m.remoteJid "Hello there!"]) := by
  by_cases hp1 : t = "requestPlaceholder" ∧ rid = none <;>
    by_cases hp2 : t = "onDemandHistSync" <;>
      simp [processMsg, htext, hp1, hp2, runOp, hfail, sendMessageWTyping, hfrom, hdo,
        hnews, List.append_assoc, Bind.bind, Except.bind]

/-- C5 witness: a concrete plain inbound message produces the seven
effects in order. -/
theorem claim5_reply_choreography_witness :
    processMsg ⟨true, fun _ => false, fun _ => false⟩ none []
      ⟨false, "jid1", "key1", some "hi", none, 5⟩ =
    .ok [Effect.readMessages "key1", Effect.presenceSubscribe "jid1",
      Effect.delayMs 500, Effect.sendPresenceUpdate "composing" "jid1",
      Effect.delayMs 2000, Effect.sendPresenceUpdate "paused" "jid1",
      Effect.sendMessage "jid1" "Hello there!"] := by
  have h := claim5_reply_choreography ⟨true, fun _ => false, fun _ => false⟩
    (fun _ => rfl) ⟨false, "jid1", "key1", some "hi", none, 5⟩ none [] "hi" rfl rfl rfl rfl
  rw [if_neg (by decide), if_neg (by decide)] at h
  simpa using h

/-- C7 counterexample: a batch holding a reply-triggering message and
a contacts update, with readMessages rejecting, makes the whole
dispatch callback reject: the remaining events of the batch — here the
contacts update — are never handled, so one failed per-event operation
does halt the event dispatch loop. -/
theorem claim7_dispatch_counterexample :
    processBatch
      { doReplies := true, isNewsletter := fun _ => false,
        fails := (fun e => match e with
          | Effect.readMessages _ => true
          | _ => false) }
      { credsUpdate := false,
        upsert := some
          { upsertType := "notify", requestId := none,
            messages :=
              [{ fromMe := false, remoteJid := "j1", keyId := "m1",
                 conversation := some "hello", extendedText := none,
                 messageTimestamp := 0 }] },
        contactsUpdate := [{ contactId := "c1", imgUrl := some (some "u") }] }
      = .error () := rfl

theorem fails_false_of_contained {env : DispatchEnv}
    (hf : ∀ e, env.fails e = true → ∃ cid, e = Effect.profilePictureUrl cid)
    (e : Effect) (he : ∀ cid, e ≠ Effect.profilePictureUrl cid) :
    env.fails e = false := by
  cases hfe : env.fails e
  · rfl
  · obtain ⟨cid, rfl⟩ := hf e hfe
    exact absurd rfl (he cid)

theorem processMsg_ok {env : DispatchEnv}
    (hf : ∀ e, env.fails e = true → ∃ cid, e = Effect.profilePictureUrl cid)
    (rid : Option String) (m : WAMsg) (tr : List Effect) :
    ∃ tr2, processMsg env rid tr m = .ok tr2 := by
  have h1 := fails_false_of_contained hf (Effect.requestPlaceholderResend m.keyId)
    (by intro cid hc; cases hc)
  have h2 := fails_false_of_contained hf
    (Effect.fetchMessageHistory 50 m.keyId m.messageTimestamp) (by intro cid hc; cases hc)
  have h3 := fails_false_of_contained hf (Effect.readMessages m.keyId)
    (by intro cid hc; cases hc)
  have h4 := fails_false_of_contained hf (Effect.presenceSubscribe m.remoteJid)
    (by intro cid hc; cases hc)
  have h5 := fails_false_of_contained hf (Effect.sendPresenceUpdate "composing" m.remoteJid)
    (by intro cid hc; cases hc)
  have h6 := fails_false_of_contained hf (Effect.sendPresenceUpdate "paused" m.remoteJid)
    (by intro cid hc; cases hc)
  have h7 := fails_false_of_contained hf (Effect.sendMessage m.remoteJid "Hello there!")
    (by intro cid hc; cases hc)
  cases hmt : msgText m with
  | none => exact ⟨tr, by simp [processMsg, hmt]⟩
  | some t =>
    by_cases hp1 : t = "requestPlaceholder" ∧ rid = none <;>
      by_cases hp2 : t = "onDemandHistSync" <;>
        by_cases hp3 : (!m.fromMe && env.doReplies && !(env.isNewsletter m.remoteJid)) = true <;>
          simp [processMsg, hmt, hp1, hp2, hp3, runOp, sendMessageWTyping,
            h1, h2, h3, h4, h5, h6, h7, Bind.bind, Except.bind]

theorem processUpsert_ok {env : DispatchEnv}
    (hf : ∀ e, env.fails e = true → ∃ cid, e = Effect.profilePictureUrl cid)
    (u : UpsertEvent) (tr : List Effect) :
    ∃ tr2, processUpsert env tr u = .ok tr2 := by
  unfold processUpsert
  by_cases ht : u.upsertType = "notify"
  · rw [if_pos ht]
    clear ht
    induction u.messages generalizing tr with
    | nil => exact ⟨tr, rfl⟩
    | cons m ms ih =>
      rw [List.foldlM_cons]
      obtain ⟨tr1, h1⟩ := processMsg_ok hf u.requestId m tr
      rw [h1]
      obtain ⟨tr2, h2⟩ := ih tr1
      exact ⟨tr2, h2⟩
  · rw [if_neg ht]
    exact ⟨tr, rfl⟩

/-- C7 amended: a rejection is contained only where the source
attaches a catch handler — the profilePictureUrl fetch of
contacts.update; when every rejecting operation is such a contained
one, the dispatcher completes the whole batch.  A rejection of any
plain awaited per-event operation (saveCreds or the messages.upsert
actions) instead aborts the dispatch callback, skipping the remaining
events of that batch, as the counterexample shows. -/
theorem claim7_dispatch_amended (env : DispatchEnv)
    (hf : ∀ e, env.fails e = true → ∃ cid, e = Effect.profilePictureUrl cid)
    (b : EventBatch) :
    ∃ tr, processBatch env b = .ok tr := by
  have hs := fails_false_of_contained hf Effect.saveCreds (by intro cid hc; cases hc)
  cases hup : b.upsert with
  | none =>
    by_cases hc : b.credsUpdate <;>
      simp [processBatch, hup, hc, runOp, hs, Bind.bind, Except.bind]
  | some u =>
    by_cases hc : b.credsUpdate
    · obtain ⟨tr1, h1⟩ := processUpsert_ok hf u [Effect.saveCreds]
      simp [processBatch, hup, hc, runOp, hs, Bind.bind, Except.bind, h1]
    · obtain ⟨tr1, h1⟩ := processUpsert_ok hf u []
      simp [processBatch, hup, hc, Bind.bind, Except.bind, h1]

/-- C7 amended witness: the same batch as the counterexample, but
with only the caught profile-picture fetch rejecting, completes. -/
theorem claim7_dispatch_amended_witness :
    ∃ tr, processBatch
      { doReplies := true, isNewsletter := fun _ => false,
        fails := (fun e => match e with
          | Effect.profilePictureUrl _ => true
          | _ => false) }
      { credsUpdate := true,
        upsert := some
          { upsertType := "notify", requestId := none,
            messages :=
              [{ fromMe := false, remoteJid := "j1", keyId := "m1",
                 conversation := some "hello", extendedText := none,
                 messageTimestamp := 0 }] },
        contactsUpdate := [{ contactId := "c1", imgUrl := some (some "u") }] }
      = .ok tr := by
  apply claim7_dispatch_amended
  intro e he
  cases e with
  | profilePictureUrl cid => exact ⟨cid, rfl⟩
  | readMessages a => exact Bool.noConfusion he
  | presenceSubscribe a => exact Bool.noConfusion he
  | delayMs a => exact Bool.noConfusion he
  | sendPresenceUpdate a b => exact Bool.noConfusion he
  | sendMessage a b => exact Bool.noConfusion he
  | requestPlaceholderResend a => exact Bool.noConfusion he
  | fetchMessageHistory a b c => exact Bool.noConfusion he
  | saveCreds => exact Bool.noConfusion he
